import Mathlib

/-!
Verification development for the Marp2PPTX post-processing pipeline.

Strings of the Python source are embedded as `List Char`; the narrow regular
expressions the source uses are embedded as explicit scanning functions with
the same matching semantics (leftmost match, greedy / lazy quantifier
behaviour where it is observable).  Machine integers are `Nat` / `Int` / `ℚ`
with Python's truncating `int(...)` and floor `//` made explicit.
-/

namespace Marp2PPTX

/-- Characters of a Python `str`, embedded as a list. -/
abbrev Str := List Char

/-- ASCII whitespace of Python's `\s` class and `str.strip`. -/
def pyWhitespace (c : Char) : Bool :=
  c = ' ' || c = '\t' || c = '\n' || c = '\r' || c = '\x0b' || c = '\x0c'

/-- Python `str.strip()`: drop whitespace at both ends. -/
def stripStr (s : Str) : Str :=
  ((s.dropWhile pyWhitespace).reverse.dropWhile pyWhitespace).reverse

/-- Python `str.split(sep)` for a one-character separator (keeps empty parts). -/
def splitOnChar (sep : Char) : Str → List Str
  | [] => [[]]
  | c :: t =>
    if c = sep then [] :: splitOnChar sep t
    else
      match splitOnChar sep t with
      | [] => [[c]]
      | p :: ps => (c :: p) :: ps

/-- Match a literal at the head of the string (case sensitive); return the rest. -/
def matchLit : Str → Str → Option Str
  | [], s => some s
  | _, [] => none
  | l :: lt, c :: ct => if l = c then matchLit lt ct else none

/-- Match a literal at the head of the string, ASCII case-insensitively
(Python `re.IGNORECASE`); return the rest. -/
def matchLitCI : Str → Str → Option Str
  | [], s => some s
  | _, [] => none
  | l :: lt, c :: ct => if l.toLower = c.toLower then matchLitCI lt ct else none

/-- The identifier characters of the class-boundary pattern `[0-9A-Za-z_-]`. -/
def isIdentChar (c : Char) : Bool :=
  c.isAlpha || c.isDigit || c = '_' || c = '-'

/-- Value of a digit string, as Python `int(...)` on a `\d+` capture. -/
def natOfDigits (ds : Str) : Nat :=
  ds.foldl (fun a c => 10 * a + (c.toNat - 48)) 0

/-- `re.search` scanning: try the partial match `f` at every start position,
left to right, and return the first success. -/
def scanFind {α : Type} (f : Str → Option α) : Str → Option α
  | [] => f []
  | c :: t =>
    match f (c :: t) with
    | some r => some r
    | none => scanFind f t

/-- Split at the first occurrence of a character: `some (before, after)`. -/
def splitFirst (sep : Char) : Str → Option (Str × Str)
  | [] => none
  | c :: t =>
    if c = sep then some ([], t)
    else (splitFirst sep t).map (fun p => (c :: p.1, p.2))

/-- The six invisible code points removed by `remove_invisible_characters`
(src/src/preprocessing.py lines 48-51):
U+200B, U+200C, U+200D, U+FEFF, U+200E, U+200F. -/
def invisibleChars : List Char :=
  [Char.ofNat 0x200B, Char.ofNat 0x200C, Char.ofNat 0x200D,
   Char.ofNat 0xFEFF, Char.ofNat 0x200E, Char.ofNat 0x200F]

/-- `remove_invisible_characters` (src/src/preprocessing.py): `re.sub` with the
character class of the six invisible code points and an empty replacement,
i.e. deletion of exactly those characters. -/
def remove_invisible_characters (content : Str) : Str :=
  content.filter (fun c => !(invisibleChars.contains c))

/-- One step of `re.finditer(r"([^{]+)\{([^}]+)\}", css)`: the rule list of a
stylesheet, as (selector text, declaration block) pairs.  Fuel-driven; the
fuel is always sufficient (each step strictly shortens the string). -/
def cssRulesGo : Nat → Str → List (Str × Str)
  | 0, _ => []
  | fuel + 1, s =>
    match splitFirst '{' s with
    | none => []
    | some (pre, rest) =>
      if pre = [] then cssRulesGo fuel rest
      else
        match splitFirst '}' rest with
        | none => []
        | some (body, rest2) =>
          if body = [] then cssRulesGo fuel rest
          else (pre, body) :: cssRulesGo fuel rest2

/-- All `selector { body }` rules of a stylesheet, in document order. -/
def cssRules (s : Str) : List (Str × Str) :=
  cssRulesGo (s.length + 1) s

/-- Does `(^|[^0-9A-Za-z_-])\.<cls>($|[^0-9A-Za-z_-])` match at the current
position, where `prev` is the character before it (`none` at `^`)? -/
def boundedHere (cls : Str) (prev : Option Char) (s : Str) : Bool :=
  (match prev with
   | none => true
   | some c => !(isIdentChar c)) &&
  (match matchLit ('.' :: cls) s with
   | none => false
   | some rest =>
     match rest with
     | [] => true
     | c :: _ => !(isIdentChar c))

/-- `re.search` of the bounded class token anywhere in a single selector. -/
def selMatch (cls : Str) : Option Char → Str → Bool
  | prev, [] => boundedHere cls prev []
  | prev, c :: t => boundedHere cls prev (c :: t) || selMatch cls (some c) t

/-- `_css_block_for_class` (src/src/render_div_as_image.py lines 19-35): the
declaration block of the first rule whose comma-separated selector list has a
selector containing the bounded token `.<cls>`; `None` otherwise. -/
def cssBlockForClass (css : Option Str) (cls : Str) : Option Str :=
  match css with
  | none => none
  | some c =>
    (cssRules c).findSome? (fun r =>
      if (splitOnChar ',' r.1).any (fun sel => selMatch cls none (stripStr sel))
      then some r.2 else none)

/-- One position of `re.search(rf"{prop}\s*:\s*([^;]+)", block, re.IGNORECASE)`:
the property name (case-insensitive), optional whitespace, `:`, optional
whitespace, then a non-empty run of non-`;` characters. -/
def tryProp (prop : Str) (s : Str) : Option Str :=
  match matchLitCI prop s with
  | none => none
  | some r1 =>
    match matchLit [':'] (r1.dropWhile pyWhitespace) with
    | none => none
    | some r2 =>
      let v := (r2.dropWhile pyWhitespace).takeWhile (fun c => c ≠ ';')
      if v = [] then none else some (stripStr v)

/-- `_extract_css_property` (src/src/render_div_as_image.py lines 38-48). -/
def extractProp (block : Option Str) (prop : Str) : Option Str :=
  match block with
  | none => none
  | some b => if b = [] then none else scanFind (tryProp prop) b

/-- The class-rule pixel parse of `main` (src/src/render_div_as_image.py lines
183-190): `.strip().endswith("px")` and then `re.match(r"(\d+)", ...)`. -/
def pxValueNat (v : Str) : Option Nat :=
  let t := stripStr v
  if t.reverse.take 2 = ['x', 'p'] then
    let ds := t.takeWhile Char.isDigit
    if ds = [] then none else some (natOfDigits ds)
  else none

/-- One position of `re.search(rf"{key}\s*(\d+)px", s)` where `key` is a
literal such as `"width:"` (case sensitive; src lines 161, 167). -/
def tryKeyPx (key : Str) (s : Str) : Option Nat :=
  match matchLit key s with
  | none => none
  | some r1 =>
    let r2 := r1.dropWhile pyWhitespace
    let ds := r2.takeWhile Char.isDigit
    if ds = [] then none
    else
      match matchLit ['p', 'x'] (r2.drop ds.length) with
      | none => none
      | some _ => some (natOfDigits ds)

/-- `re.search(r"width:\s*(\d+)px", s)`-style search for `key ++ "\s*(\d+)px"`. -/
def searchIntPx (key : Str) (s : Str) : Option Nat :=
  scanFind (tryKeyPx key) s

/-- The first class of the fragment for which `_css_block_for_class` yields a
block (the `for class_name in div_classes` loops of `main`, which `break` on
the first class with a block). -/
def firstClassBlock (css : Option Str) (classes : List Str) : Option Str :=
  classes.findSome? (fun c => cssBlockForClass css c)

/-- The literal `"width:"` of the inline regex. -/
def kWidthColon : Str := ("width:").toList

/-- The literal `"height:"` of the inline regex. -/
def kHeightColon : Str := ("height:").toList

/-- The property name `"width"`. -/
def kWidth : Str := ("width").toList

/-- The property name `"height"`. -/
def kHeight : Str := ("height").toList

/-- Target-size resolution of `main` (src/src/render_div_as_image.py lines
157-193): start from the 400x400 default, overwrite from the inline
`width:(\d+)px` / `height:(\d+)px` on the div style, then — whenever the first
matching class rule carries a `px` width/height — overwrite again with the
class value. -/
def resolveTargetSize (divStyle : Str) (css : Option Str) (classes : List Str) :
    Nat × Nat :=
  let tw1 := (searchIntPx kWidthColon divStyle).getD 400
  let th1 := (searchIntPx kHeightColon divStyle).getD 400
  match firstClassBlock css classes with
  | none => (tw1, th1)
  | some body =>
    let tw2 :=
      match extractProp (some body) kWidth with
      | none => tw1
      | some v => (pxValueNat v).getD tw1
    let th2 :=
      match extractProp (some body) kHeight with
      | none => th1
      | some v => (pxValueNat v).getD th1
    (tw2, th2)

/-- Candidate splits of the lazy group of `(?:['\"]?)(.+?)(?:['\"]?)\)`:
every way to read a non-empty contents run (never across `\n`, as `.` does
not match a newline) followed by an optional closing quote and `)`, ordered
shortest-contents first (lazy order, closing quote greedy). -/
def urlCloseSplits : Nat → Str → Str → List (Str × Str)
  | 0, _, _ => []
  | _, _, [] => []
  | fuel + 1, acc, c :: rest =>
    if c = '\n' then []
    else
      let acc2 := acc ++ [c]
      let here : List (Str × Str) :=
        match rest with
        | ')' :: r => [(acc2, r)]
        | q :: ')' :: r => if q = '\'' ∨ q = '"' then [(acc2, r)] else []
        | _ => []
      here ++ urlCloseSplits fuel acc2 rest

/-- Candidates after the literal `url(`, with the greedy optional opening
quote tried first and backtracked second. -/
def urlOpenSplits (s : Str) : List (Str × Str) :=
  match s with
  | [] => []
  | q :: rest =>
    if q = '\'' ∨ q = '"' then
      urlCloseSplits rest.length [] rest ++ urlCloseSplits (q :: rest).length [] (q :: rest)
    else urlCloseSplits (q :: rest).length [] (q :: rest)

/-- The literal `"background-image:"`. -/
def kBgImageColon : Str := ("background-image:").toList

/-- The property name `"background-image"`. -/
def kBgImage : Str := ("background-image").toList

/-- The literal `"url("`. -/
def kUrlOpen : Str := ("url(").toList

/-- One position of the inline background regex of `main` (src line 105):
`background-image:\s*url\((?:['\"]?)(.+?)(?:['\"]?)\)\s*(?=;|$)` with
`re.IGNORECASE`.  The `(?=;|$)` lookahead (after backtrackable `\s*`) demands
that the first non-whitespace character after the `)` be `;`, or that only
whitespace remain. -/
def tryInlineBg (s : Str) : Option Str :=
  match matchLitCI kBgImageColon s with
  | none => none
  | some r1 =>
    match matchLitCI kUrlOpen (r1.dropWhile pyWhitespace) with
    | none => none
    | some r2 =>
      (urlOpenSplits r2).findSome? (fun p =>
        let t := p.2.dropWhile pyWhitespace
        match t with
        | [] => some p.1
        | ';' :: _ => some p.1
        | _ => none)

/-- The inline `background-image: url(...)` URL of a div style, if any. -/
def inlineBgUrl (style : Str) : Option Str :=
  scanFind tryInlineBg style

/-- One position of `re.search(r"url\((['\"]?)(.+?)(['\"]?)\)", v)` (src line
122, case sensitive, no trailing lookahead): the shortest candidate wins. -/
def tryUrlPlain (s : Str) : Option Str :=
  match matchLit kUrlOpen s with
  | none => none
  | some r => (urlOpenSplits r).head?.map Prod.fst

/-- The class-rule background-image URL (src lines 113-125): the first class
whose block has a `background-image` value containing `url(...)`. -/
def classBgUrl (css : Option Str) (classes : List Str) : Option Str :=
  match css with
  | none => none
  | some _ =>
    classes.findSome? (fun cn =>
      match cssBlockForClass css cn with
      | none => none
      | some body =>
        match extractProp (some body) kBgImage with
        | none => none
        | some v => scanFind tryUrlPlain v)

/-- Source resolution of `main` (src lines 99-125): the `<img src>` when the
nested image carries a `src` attribute, else the inline
`background-image: url(...)` of the div style, else the first class rule's
`background-image` URL; empty when nothing resolves. -/
def resolveSrc (imgSrc : Option Str) (divStyle : Str) (css : Option Str)
    (classes : List Str) : Str :=
  match imgSrc with
  | some s => s
  | none =>
    match inlineBgUrl divStyle with
    | some u => u
    | none => (classBgUrl css classes).getD []

/-- Python `x or 0` on an optional index (`None` and `0` both give `0`). -/
def pyOrZero (o : Option Nat) : Nat :=
  match o with
  | none => 0
  | some n => n

/-- Little-endian base-10 digits, fuel-driven so that the kernel can
evaluate it (the fuel `n` is always sufficient). -/
def natDigitsRev : Nat → Nat → List Nat
  | 0, _ => []
  | fuel + 1, n => if n = 0 then [] else n % 10 :: natDigitsRev fuel (n / 10)

/-- Decimal representation of a natural number, as Python `f"{n}"`. -/
def natRepr (n : Nat) : Str :=
  if n = 0 then ['0'] else ((natDigitsRev n n).map Nat.digitChar).reverse

/-- The output filename of `main` (src lines 373-376):
`f"div_render_pillow_{os.getpid()}_{slide_index or 0}_{div_index or 0}.png"`. -/
def pngFileName (pid : Nat) (slideIdx divIdx : Option Nat) : Str :=
  ("div_render_pillow_").toList ++ natRepr pid ++ ['_'] ++
    natRepr (pyOrZero slideIdx) ++ ['_'] ++ natRepr (pyOrZero divIdx) ++
    (".png").toList

/-- `os.path.join(tempfile.gettempdir(), filename)`. -/
def pngPath (tmpDir : Str) (pid : Nat) (slideIdx divIdx : Option Nat) : Str :=
  tmpDir ++ ['/'] ++ pngFileName pid slideIdx divIdx

/-- A raster image: dimensions plus an RGB pixel function. -/
structure Img where
  w : Nat
  h : Nat
  pix : Nat → Nat → Nat × Nat × Nat

/-- Python `int(...)` on a rational: truncation toward zero. -/
def pyInt (q : ℚ) : ℤ :=
  if 0 ≤ q then ⌊q⌋ else ⌈q⌉

/-- `Image.resize`: Pillow returns the image unchanged when the requested size
equals the current size; a genuine resample is modelled as nearest-neighbour
sampling (the resampling filter itself is outside the verified claims, which
only exercise the identity case). -/
def resizeImg (img : Img) (nw nh : Nat) : Img :=
  if nw = img.w ∧ nh = img.h then img
  else
    { w := nw, h := nh,
      pix := fun x y => img.pix (x * img.w / nw) (y * img.h / nh) }

/-- The `cover` scale factor (src line 291):
`max(target_w / img.width, target_h / img.height)`. -/
def coverScale (sw0 sh0 tw th : Nat) : ℚ :=
  max ((tw : ℚ) / (sw0 : ℚ)) ((th : ℚ) / (sh0 : ℚ))

/-- Scaled width `sw = max(1, int(img.width * scale))` (src line 292). -/
def coverSW (sw0 sh0 tw th : Nat) : Nat :=
  max 1 (pyInt ((sw0 : ℚ) * coverScale sw0 sh0 tw th)).toNat

/-- Scaled height `sh = max(1, int(img.height * scale))` (src line 293). -/
def coverSH (sw0 sh0 tw th : Nat) : Nat :=
  max 1 (pyInt ((sh0 : ℚ) * coverScale sw0 sh0 tw th)).toNat

/-- The raw horizontal crop offset for `cover` (src lines 296-301): the
percentage offset scaled by the overflow `(sw - target_w)`, else the pixel
offset as given, else half the overflow (`//` is Python floor division). -/
def coverOffset (s t : Nat) (posPct : Option ℚ) (posPx : Option ℤ) : ℤ :=
  match posPct with
  | some p => pyInt (((s : ℚ) - (t : ℚ)) * (p / 100))
  | none =>
    match posPx with
    | some v => v
    | none => Int.fdiv ((s : ℤ) - (t : ℤ)) 2

/-- The clamped crop origin `max(0, min(s - t, offset))` (src lines 308-309). -/
def coverClamp (s t : Nat) (posPct : Option ℚ) (posPx : Option ℤ) : ℤ :=
  max 0 (min ((s : ℤ) - (t : ℤ)) (coverOffset s t posPct posPx))

/-- The whole `object_fit == "cover"` branch (src lines 289-310): scale the
source so it covers the target, resample, and crop a target-sized window at
the clamped object-position offset. -/
def coverFit (img : Img) (tw th : Nat) (posXPct posYPct : Option ℚ)
    (posXPx posYPx : Option ℤ) : Img :=
  let sw := coverSW img.w img.h tw th
  let sh := coverSH img.w img.h tw th
  let resized := resizeImg img sw sh
  let left := coverClamp sw tw posXPct posXPx
  let top := coverClamp sh th posYPct posYPx
  { w := tw, h := th, pix := fun x y => resized.pix (left.toNat + x) (top.toNat + y) }

/-- The 200x100 test source whose left half is red and right half is blue. -/
def splitSrcImg : Img :=
  { w := 200, h := 100,
    pix := fun x _ => if x < 100 then (255, 0, 0) else (0, 0, 255) }

/-- The shape of the alpha mask chosen by `main`. -/
inductive MaskShape
  | ellipse : MaskShape
  | rounded : Nat → MaskShape
  | rect : MaskShape
deriving DecidableEq

/-- Mask selection (src lines 347-364): percent radius `>= 50` (or pixel
radius with `2*r >= min(target_w, target_h)`) gives the full ellipse; a
smaller positive radius gives a rounded rectangle; otherwise the full
rectangle. -/
def maskShape (pct : Option ℚ) (px : Option ℤ) (tw th : Nat) : MaskShape :=
  match pct with
  | some p =>
    if 50 ≤ p then .ellipse
    else if 0 < p then .rounded (pyInt ((min tw th : ℚ) * p / 100)).toNat
    else .rect
  | none =>
    match px with
    | some r =>
      if (min tw th : ℤ) ≤ 2 * r then .ellipse
      else if 0 < r then .rounded r.toNat
      else .rect
    | none => .rect

/-- Membership in the ellipse inscribed in `[0, tw] x [0, th]` (the ideal
membership test modelling `ImageDraw.ellipse`). -/
def inEllipse (tw th x y : Nat) : Bool :=
  (2 * (x : ℤ) - tw) ^ 2 * (th : ℤ) ^ 2 + (2 * (y : ℤ) - th) ^ 2 * (tw : ℤ) ^ 2
    ≤ (tw : ℤ) ^ 2 * (th : ℤ) ^ 2

/-- Membership in the radius-`r` rounded rectangle on `[0, tw] x [0, th]`
(the ideal membership test modelling `ImageDraw.rounded_rectangle`). -/
def inRoundedRect (tw th r x y : Nat) : Bool :=
  let cx : ℤ := min (max (x : ℤ) (r : ℤ)) ((tw : ℤ) - r)
  let cy : ℤ := min (max (y : ℤ) (r : ℤ)) ((th : ℤ) - r)
  ((x : ℤ) - cx) ^ 2 + ((y : ℤ) - cy) ^ 2 ≤ (r : ℤ) ^ 2

/-- The alpha value of the mask at a pixel. -/
def maskAlpha (shape : MaskShape) (tw th x y : Nat) : Nat :=
  match shape with
  | .rect => 255
  | .ellipse => if inEllipse tw th x y then 255 else 0
  | .rounded r => if inRoundedRect tw th r x y then 255 else 0

/-- The external collaborators of the rasterizer's source-loading step:
`pydantic.HttpUrl` validation, `Path.is_file`, and the (downloading or
file-opening) image load.  A `none` load models the exception that the
`try/except` of src lines 145-155 turns into a `None` return. -/
structure LoadEnv where
  isValidHttpUrl : Str → Bool
  isFile : Str → Bool
  load : Str → Option Img

/-- The source-resolution and loading stage of `main` (src lines 99-155):
empty source, an invalid source (neither valid remote URL nor existing file),
or a failed load, all yield `none`; otherwise the loaded image.  Total — in
the source every failure on this path is caught and returned as `None`. -/
def renderDivSource (env : LoadEnv) (imgSrc : Option Str) (divStyle : Str)
    (css : Option Str) (classes : List Str) : Option Img :=
  let src := resolveSrc imgSrc divStyle css classes
  if src = [] then none
  else if env.isValidHttpUrl src then env.load src
  else if env.isFile src then env.load src
  else none

/-- `main` of src/src/render_div_as_image.py, abstracted to the claims at
stake: `None` exactly on the source/load failures of `renderDivSource`; on
success the processing stages run and the bitmap is written to `pngPath`. -/
def render_div_as_image (env : LoadEnv) (imgSrc : Option Str) (divStyle : Str)
    (css : Option Str) (classes : List Str) (tmpDir : Str) (pid : Nat)
    (slideIdx divIdx : Option Nat) : Option Str :=
  match renderDivSource env imgSrc divStyle css classes with
  | none => none
  | some _ => some (pngPath tmpDir pid slideIdx divIdx)

/-- The layout axis of a background declaration. -/
inductive Direction
  | horizontal : Direction
  | vertical : Direction
deriving DecidableEq

/-- The side a split background occupies. -/
inductive SplitDir
  | left : SplitDir
  | right : SplitDir
  | top : SplitDir
  | bottom : SplitDir
deriving DecidableEq

/-- A pixel-space region of the reference canvas. -/
structure Region where
  left : Nat
  top : Nat
  width : Nat
  height : Nat
deriving DecidableEq

/-- One slice of the partition of `[offset, offset + extent)` into `count`
integer slices, the last slice absorbing the rounding remainder. -/
def sliceInterval (offset extent index count : Nat) : Nat × Nat :=
  let q := extent / count
  if index + 1 = count then (offset + index * q, extent - index * q)
  else (offset + index * q, q)

/-- Modelled from the spec: `_calculate_background_region` (the Region
Geometry Calculator) is defined in `src/postprocessing.py`, which is absent
from the provided sources (only its tests and callers are present).  Per
spec §4.2 and tests/test_marp_postprocess.py lines 174-193: without split the
canvas is cut into `count` equal contiguous slices along `direction` (last
slice absorbs the rounding remainder); with split, the `split_dir` side of
the canvas at `split_pct` percent becomes the area that is sliced instead. -/
def calculateBackgroundRegion (cw ch index count : Nat) (dir : Direction)
    (isSplit : Bool) (splitDir : Option SplitDir) (splitPct : Option Nat) :
    Region :=
  match dir with
  | .horizontal =>
    let span :=
      if isSplit then
        let b := cw * (splitPct.getD 50) / 100
        match splitDir.getD .left with
        | .left | .top => (0, b)
        | .right | .bottom => (b, cw - b)
      else (0, cw)
    let lw := sliceInterval span.1 span.2 index count
    ⟨lw.1, 0, lw.2, ch⟩
  | .vertical =>
    let span :=
      if isSplit then
        let b := ch * (splitPct.getD 50) / 100
        match splitDir.getD .left with
        | .left | .top => (0, b)
        | .right | .bottom => (b, ch - b)
      else (0, ch)
    let tw := sliceInterval span.1 span.2 index count
    ⟨0, tw.1, cw, tw.2⟩

/-- Is the pixel `(x, y)` inside the region? -/
def regionContains (r : Region) (x y : Nat) : Prop :=
  r.left ≤ x ∧ x < r.left + r.width ∧ r.top ≤ y ∧ y < r.top + r.height

instance (r : Region) (x y : Nat) : Decidable (regionContains r x y) := by
  unfold regionContains
  infer_instance

/-- A package shape, reduced to the candidate signals of the pruning pass:
its extent and whether its fill is solid white. -/
structure PShape where
  width : Nat
  height : Nat
  solidWhite : Bool
deriving DecidableEq

/-- Is the shape a full-slide solid-white rectangle candidate? -/
def isWhiteFullSlide (sw sh : Nat) (s : PShape) : Bool :=
  s.width = sw && s.height = sh && s.solidWhite

/-- Modelled from the spec: `remove_redundant_marp_white_rectangles` is
defined in `src/postprocessing.py`, which is absent from the provided sources
(only its tests are present).  Per spec §4.6 and the tests at
tests/test_marp_postprocess.py lines 690-836: on a slide (shape list in
z-order, back-most first) removal fires only when exactly three shapes are
full-slide solid-white candidates and those three are the back-most shapes;
then exactly those three are removed and the count 3 is returned, otherwise
nothing changes and 0 is returned. -/
def removeRedundantWhiteRects (sw sh : Nat) (shapes : List PShape) :
    List PShape × Nat :=
  if (shapes.filter (isWhiteFullSlide sw sh)).length = 3 ∧
      (shapes.take 3).all (isWhiteFullSlide sw sh) then
    (shapes.filter (fun s => !(isWhiteFullSlide sw sh s)), 3)
  else (shapes, 0)

/-- The guarded call pattern of src/main.py lines 86-95: run a fallible step
and keep the incoming package state when it raises. -/
def recoverStep {Pkg E : Type} (f : Pkg → Except E Pkg) (p : Pkg) : Pkg :=
  match f p with
  | .ok q => q
  | .error _ => p

/-- `process_pptx_html` (src/main.py lines 33-98), with its helper stages as
parameters.  Modelled from the spec for the helpers' own behaviour: the
helpers live in `src/postprocessing.py`, absent from the provided sources,
and per spec §7 their per-slide/per-fragment failures never escape, so
`native`, `widen` and `styled` are total functions on the package state;
`normalize_font_names` and `remove_redundant_marp_white_rectangles` are the
two calls additionally wrapped in `try/except` in src/main.py itself.  Only
`parse_marp_html` and opening the package may fail, before any repair runs. -/
def process_pptx_html {Slides Pkg E Saved : Type}
    (parse : Except E Slides) (openPkg : Except E Pkg)
    (native : Slides → Pkg → Pkg) (widen : Pkg → Pkg)
    (styled : Slides → Pkg → Pkg) (runStyled : Bool)
    (normalize : Pkg → Except E Pkg)
    (removeRects : Pkg → Except E (Pkg × Nat))
    (save : Pkg → Saved) : Except E Saved := do
  let slides ← parse
  let prs0 ← openPkg
  let prs1 := native slides prs0
  let prs2 := widen prs1
  let prs3 := if runStyled then styled slides prs2 else prs2
  let prs4 := recoverStep normalize prs3
  let prs5 := recoverStep (fun p => (removeRects p).map Prod.fst) prs4
  return save prs5

/-- The left-boundary condition of the bounded-token spec: the character
just before the `.` (`prev` when the candidate prefix `pre` is empty) must be
absent or a non-identifier character. -/
def boundarySpec (prev : Option Char) (pre : Str) : Prop :=
  match pre.getLast? with
  | some c => isIdentChar c = false
  | none =>
    match prev with
    | some c => isIdentChar c = false
    | none => True

/-- The right-boundary condition: the token is at the end of the selector or
followed by a non-identifier character. -/
def postSpec (post : Str) : Prop :=
  ∀ c, post.head? = some c → isIdentChar c = false

/-- Spec side of C5: the token `.<cls>` occurs in the selector bounded on
both sides by characters that are not identifier characters. -/
def specTokenMatch (sel cls : Str) : Prop :=
  ∃ pre post, sel = pre ++ ('.' :: cls) ++ post ∧ boundarySpec none pre ∧
    postSpec post

/-- Spec side of C5 for a whole rule: some selector of the comma-separated
selector list (each stripped) contains the bounded token. -/
def specRuleMatch (cls : Str) (r : Str × Str) : Prop :=
  ∃ sel ∈ splitOnChar ',' r.1, specTokenMatch (stripStr sel) cls

/-! ## Theorems -/

/-- C10: `remove_invisible_characters` deletes every occurrence of exactly
the six code points U+200B, U+200C, U+200D, U+FEFF, U+200E, U+200F and
preserves every other character in order (the result is the maximal
subsequence free of those code points); it is idempotent, and a string
containing none of the six code points is returned unchanged. -/
theorem remove_invisible_characters_spec (s : Str) :
    (∀ c ∈ remove_invisible_characters s, c ∉ invisibleChars) ∧
    List.Sublist (remove_invisible_characters s) s ∧
    (∀ t : Str, List.Sublist t s → (∀ c ∈ t, c ∉ invisibleChars) →
      List.Sublist t (remove_invisible_characters s)) ∧
    remove_invisible_characters (remove_invisible_characters s) =
      remove_invisible_characters s ∧
    ((∀ c ∈ s, c ∉ invisibleChars) → remove_invisible_characters s = s) := by
  unfold remove_invisible_characters
  refine ⟨?_, List.filter_sublist s, ?_, ?_, ?_⟩
  · intro c hc
    have := List.of_mem_filter hc
    simpa using this
  · intro t hts hgood
    have ht : t.filter (fun c => !(invisibleChars.contains c)) = t := by
      apply List.filter_eq_self.mpr
      intro c hc
      simpa using hgood c hc
    have hf := hts.filter (fun c => !(invisibleChars.contains c))
    rw [ht] at hf
    exact hf
  · apply List.filter_eq_self.mpr
    intro c hc
    have := List.of_mem_filter hc
    simpa using this
  · intro hgood
    apply List.filter_eq_self.mpr
    intro c hc
    simpa using hgood c hc

/-- Witness for C10 at a concrete input: the documented example string with a
zero-width space, whose cleaned form contains no invisible characters, is a
subsequence, and is a fixed point. -/
theorem remove_invisible_characters_spec_witness :
    (∀ c ∈ remove_invisible_characters (("ab").toList ++ [Char.ofNat 0x200B]),
      c ∉ invisibleChars) ∧
    remove_invisible_characters
        (remove_invisible_characters (("ab").toList ++ [Char.ofNat 0x200B])) =
      remove_invisible_characters (("ab").toList ++ [Char.ofNat 0x200B]) ∧
    List.Sublist (("ab").toList)
      (remove_invisible_characters (("ab").toList ++ [Char.ofNat 0x200B])) := by
  refine ⟨(remove_invisible_characters_spec _).1,
    (remove_invisible_characters_spec _).2.2.2.1,
    (remove_invisible_characters_spec (("ab").toList ++ [Char.ofNat 0x200B])).2.2.1
      (("ab").toList) (by decide) (by decide)⟩

/-- C4: the alpha mask is the full ellipse when the resolved radius is a
percentage `>= 50` or a pixel radius at least half the minimum target
dimension, a rounded rectangle for smaller positive radii, and the fully
opaque rectangle when no radius is given; with `border-radius:50%` on a
200x200 target the corner pixel `(0,0)` has alpha 0 and the center pixel is
fully opaque. -/
theorem maskShape_spec :
    (∀ (p : ℚ) (px : Option ℤ) (tw th : Nat), 50 ≤ p →
      maskShape (some p) px tw th = .ellipse) ∧
    (∀ (r : ℤ) (tw th : Nat), (min tw th : ℤ) ≤ 2 * r →
      maskShape none (some r) tw th = .ellipse) ∧
    (∀ (p : ℚ) (px : Option ℤ) (tw th : Nat), 0 < p → p < 50 →
      ∃ rr, maskShape (some p) px tw th = .rounded rr) ∧
    (∀ (r : ℤ) (tw th : Nat), 2 * r < (min tw th : ℤ) → 0 < r →
      maskShape none (some r) tw th = .rounded r.toNat) ∧
    (∀ tw th : Nat, maskShape none none tw th = .rect) ∧
    (∀ tw th x y : Nat, maskAlpha .rect tw th x y = 255) ∧
    maskAlpha (maskShape (some 50) none 200 200) 200 200 0 0 = 0 ∧
    maskAlpha (maskShape (some 50) none 200 200) 200 200 100 100 = 255 := by
  refine ⟨?_, ?_, ?_, ?_, ?_, ?_, by decide, by decide⟩
  · intro p px tw th h
    simp only [maskShape, if_pos h]
  · intro r tw th h
    simp only [maskShape, if_pos h]
  · intro p px tw th h0 h50
    simp only [maskShape, if_neg (not_le.mpr h50), if_pos h0]
    exact ⟨_, rfl⟩
  · intro r tw th hlt h0
    simp only [maskShape, if_neg (not_le.mpr hlt), if_pos h0]
  · intro tw th
    rfl
  · intro tw th x y
    rfl

/-- Witness for C4: the hypothesised branch facts evaluated at concrete
radii and dimensions. -/
theorem maskShape_spec_witness :
    maskShape (some 60) none 100 100 = .ellipse ∧
    maskShape none (some 50) 100 100 = .ellipse ∧
    (∃ rr, maskShape (some 25) none 100 100 = MaskShape.rounded rr) ∧
    maskShape none (some 10) 100 100 = .rounded 10 := by
  refine ⟨maskShape_spec.1 60 none 100 100 (by norm_num),
    maskShape_spec.2.1 50 100 100 (by decide),
    maskShape_spec.2.2.1 25 none 100 100 (by norm_num) (by norm_num),
    ?_⟩
  have h := maskShape_spec.2.2.2.1 10 100 100 (by decide) (by decide)
  simpa using h

/-- In the 1-D partition of `[0, ext)` into `count` slices (last slice
absorbing the remainder), every `x < ext` lies in exactly one slice. -/
theorem sliceInterval_exists_unique (ext count x : Nat) (hc : 1 ≤ count)
    (hx : x < ext) :
    ∃! i, i < count ∧ (sliceInterval 0 ext i count).1 ≤ x ∧
      x < (sliceInterval 0 ext i count).1 + (sliceInterval 0 ext i count).2 := by
  have hsl : ∀ i, sliceInterval 0 ext i count =
      (i * (ext / count),
       if i + 1 = count then ext - i * (ext / count) else ext / count) := by
    intro i
    unfold sliceInterval
    by_cases h : i + 1 = count
    · rw [if_pos h, if_pos h]
      simp
    · rw [if_neg h, if_neg h]
      simp
  have hqc : (ext / count) * count ≤ ext := Nat.div_mul_le_self ext count
  have hiq : ∀ i, i < count → i * (ext / count) ≤ ext := by
    intro i hi
    calc i * (ext / count) ≤ count * (ext / count) :=
          Nat.mul_le_mul_right _ (Nat.le_of_lt hi)
      _ = (ext / count) * count := Nat.mul_comm _ _
      _ ≤ ext := hqc
  have hmem : ∀ i, i < count →
      (((sliceInterval 0 ext i count).1 ≤ x ∧
        x < (sliceInterval 0 ext i count).1 + (sliceInterval 0 ext i count).2) ↔
       (i * (ext / count) ≤ x ∧
        x < (if i + 1 = count then ext else (i + 1) * (ext / count)))) := by
    intro i hi
    rw [hsl i]
    have hbound := hiq i hi
    by_cases h : i + 1 = count
    · rw [if_pos h]
      simp only [if_pos h]
      constructor
      · rintro ⟨h1, h2⟩
        exact ⟨h1, by omega⟩
      · rintro ⟨h1, h2⟩
        exact ⟨h1, by omega⟩
    · rw [if_neg h]
      simp only [if_neg h]
      have hmul : (i + 1) * (ext / count) = i * (ext / count) + ext / count := by
        ring
      constructor
      · rintro ⟨h1, h2⟩
        exact ⟨h1, by omega⟩
      · rintro ⟨h1, h2⟩
        exact ⟨h1, by omega⟩
  -- existence: the greatest i with i * (ext / count) ≤ x
  have hP0 : 0 * (ext / count) ≤ x := by simp
  have hi0le : Nat.findGreatest (fun j => j * (ext / count) ≤ x) (count - 1) ≤
      count - 1 := Nat.findGreatest_le _
  generalize hI : Nat.findGreatest (fun j => j * (ext / count) ≤ x) (count - 1) = i0 at hi0le
  have hi0lt : i0 < count := by omega
  have hi0spec : i0 * (ext / count) ≤ x := by
    have := Nat.findGreatest_spec (m := 0) (n := count - 1)
      (P := fun j => j * (ext / count) ≤ x) (Nat.zero_le _) hP0
    rwa [hI] at this
  have hi0upper : x < (if i0 + 1 = count then ext else (i0 + 1) * (ext / count)) := by
    by_cases hlast : i0 + 1 = count
    · rw [if_pos hlast]
      exact hx
    · rw [if_neg hlast]
      have hle : i0 + 1 ≤ count - 1 := by omega
      have hgr := Nat.findGreatest_is_greatest
        (P := fun j => j * (ext / count) ≤ x) (n := count - 1)
        (by rw [hI]; exact Nat.lt_succ_self i0) hle
      simp only at hgr
      omega
  refine ⟨i0, ⟨hi0lt, (hmem i0 hi0lt).mpr ⟨hi0spec, hi0upper⟩⟩, ?_⟩
  rintro j ⟨hj, hjmem⟩
  have hjmem' := (hmem j hj).mp hjmem
  by_contra hne
  rcases Nat.lt_or_ge j i0 with hlt | hge
  · -- j < i0 : x < upper_j ≤ i0 * q ≤ x
    have hjn : j + 1 ≠ count := by omega
    rw [if_neg hjn] at hjmem'
    have hup : (j + 1) * (ext / count) ≤ i0 * (ext / count) :=
      Nat.mul_le_mul_right _ (by omega)
    omega
  · have hlt2 : i0 < j := by omega
    have hin : i0 + 1 ≠ count := by omega
    rw [if_neg hin] at hi0upper
    have hup : (i0 + 1) * (ext / count) ≤ j * (ext / count) :=
      Nat.mul_le_mul_right _ (by omega)
    omega

/-- When the slice count does not exceed the extent, every slice of the
1-D partition has positive size. -/
theorem sliceInterval_width_pos (ext count i : Nat) (hi : i < count)
    (hce : count ≤ ext) : 0 < (sliceInterval 0 ext i count).2 := by
  have hc : 0 < count := by omega
  have hq1 : 1 ≤ ext / count := (Nat.one_le_div_iff hc).mpr hce
  have hqc : (ext / count) * count ≤ ext := Nat.div_mul_le_self ext count
  have hmul : (i + 1) * (ext / count) = i * (ext / count) + ext / count := by
    ring
  have hcc : (i + 1) * (ext / count) ≤ count * (ext / count) :=
    Nat.mul_le_mul_right _ hi
  have hcomm : count * (ext / count) = (ext / count) * count := Nat.mul_comm _ _
  unfold sliceInterval
  by_cases h : i + 1 = count
  · rw [if_pos h]
    simp only
    omega
  · rw [if_neg h]
    simp only
    omega

/-- The non-split horizontal region, unfolded. -/
theorem horizRegion (cw ch i count : Nat) :
    calculateBackgroundRegion cw ch i count .horizontal false none none =
      ⟨(sliceInterval 0 cw i count).1, 0, (sliceInterval 0 cw i count).2, ch⟩ :=
  rfl

/-- The non-split vertical region, unfolded. -/
theorem vertRegion (cw ch i count : Nat) :
    calculateBackgroundRegion cw ch i count .vertical false none none =
      ⟨0, (sliceInterval 0 ch i count).1, cw, (sliceInterval 0 ch i count).2⟩ :=
  rfl

/-- C1 (amended): for positive canvas dimensions and `count >= 1`, the
non-split regions exactly tile the canvas (every pixel lies in exactly one
region); every region has positive width and height provided `count` does not
exceed the canvas extent along the layout direction; and the three concrete
region values of the test suite hold, including the split case. -/
theorem calculateBackgroundRegion_spec :
    (∀ cw ch count (dir : Direction) (x y : Nat), 1 ≤ count →
      x < cw → y < ch →
      ∃! i, i < count ∧
        regionContains (calculateBackgroundRegion cw ch i count dir false none none)
          x y) ∧
    (∀ cw ch count i, i < count → 0 < ch → count ≤ cw →
      0 < (calculateBackgroundRegion cw ch i count .horizontal false none none).width ∧
      0 < (calculateBackgroundRegion cw ch i count .horizontal false none none).height) ∧
    (∀ cw ch count i, i < count → 0 < cw → count ≤ ch →
      0 < (calculateBackgroundRegion cw ch i count .vertical false none none).width ∧
      0 < (calculateBackgroundRegion cw ch i count .vertical false none none).height) ∧
    calculateBackgroundRegion 1280 720 0 2 .horizontal false none none =
      ⟨0, 0, 640, 720⟩ ∧
    calculateBackgroundRegion 1280 720 1 2 .horizontal false none none =
      ⟨640, 0, 640, 720⟩ ∧
    calculateBackgroundRegion 1280 720 0 2 .horizontal true (some .left) (some 50) =
      ⟨0, 0, 320, 720⟩ := by
  refine ⟨?_, ?_, ?_, by decide, by decide, by decide⟩
  · intro cw ch count dir x y hcount hx hy
    cases dir
    · obtain ⟨i, ⟨hi, hm⟩, huniq⟩ := sliceInterval_exists_unique cw count x hcount hx
      refine ⟨i, ⟨hi, ?_⟩, ?_⟩
      · rw [horizRegion]
        exact ⟨hm.1, hm.2, Nat.zero_le y, by simpa using hy⟩
      · rintro j ⟨hj, hcont⟩
        rw [horizRegion] at hcont
        exact huniq j ⟨hj, hcont.1, hcont.2.1⟩
    · obtain ⟨i, ⟨hi, hm⟩, huniq⟩ := sliceInterval_exists_unique ch count y hcount hy
      refine ⟨i, ⟨hi, ?_⟩, ?_⟩
      · rw [vertRegion]
        exact ⟨Nat.zero_le x, by simpa using hx, hm.1, hm.2⟩
      · rintro j ⟨hj, hcont⟩
        rw [vertRegion] at hcont
        exact huniq j ⟨hj, hcont.2.2.1, hcont.2.2.2⟩
  · intro cw ch count i hi hch hce
    rw [horizRegion]
    exact ⟨sliceInterval_width_pos cw count i hi hce, hch⟩
  · intro cw ch count i hi hcw hce
    rw [vertRegion]
    exact ⟨hcw, sliceInterval_width_pos ch count i hi hce⟩

/-- Witness for C1 at concrete inputs: the pixel (700, 100) of the 1280x720
canvas lies in exactly one of the two horizontal regions, and both regions of
that partition have positive extent. -/
theorem calculateBackgroundRegion_spec_witness :
    (∃! i, i < 2 ∧
      regionContains (calculateBackgroundRegion 1280 720 i 2 .horizontal false none none)
        700 100) ∧
    0 < (calculateBackgroundRegion 1280 720 0 2 .horizontal false none none).width := by
  refine ⟨calculateBackgroundRegion_spec.1 1280 720 2 .horizontal 700 100
      (by decide) (by decide) (by decide),
    (calculateBackgroundRegion_spec.2.1 1280 720 2 0 (by decide) (by decide)
      (by decide)).1⟩

/-- C1 counterexample to the unamended claim: with the valid inputs
`w = 1, h = 720, count = 2` the first horizontal region has width 0, so
"no returned region has non-positive width or height" fails as universally
stated. -/
theorem calculateBackgroundRegion_counterexample :
    0 < 1 ∧ 0 < 720 ∧ 1 ≤ 2 ∧
    (calculateBackgroundRegion 1 720 0 2 .horizontal false none none).width = 0 := by
  decide

/-- If a list starts with `n` elements satisfying `p` and has exactly `n`
elements satisfying `p` in total, then removing the satisfying elements is
dropping the first `n`, and no satisfying element remains afterwards. -/
theorem filter_not_eq_drop_of {α : Type} (p : α → Bool) (l : List α) (n : Nat)
    (hlen : (l.filter p).length = n) (hall : (l.take n).all p = true) :
    l.filter (fun s => !(p s)) = l.drop n ∧ (l.drop n).filter p = [] := by
  have hallm : ∀ a ∈ l.take n, p a = true := List.all_eq_true.mp hall
  have hnle : n ≤ l.length := by
    have := List.length_filter_le p l
    omega
  have htakelen : (l.take n).length = n := by
    rw [List.length_take]
    omega
  have htake : (l.take n).filter p = l.take n := List.filter_eq_self.mpr hallm
  have hsplit : l.take n ++ l.drop n = l := List.take_append_drop n l
  have hfl : l.filter p = l.take n ++ (l.drop n).filter p := by
    conv_lhs => rw [← hsplit]
    rw [List.filter_append, htake]
  have hdropnil : (l.drop n).filter p = [] := by
    have : (l.filter p).length = n + ((l.drop n).filter p).length := by
      rw [hfl, List.length_append, htakelen]
    have hzero : ((l.drop n).filter p).length = 0 := by omega
    exact List.length_eq_zero.mp hzero
  refine ⟨?_, hdropnil⟩
  have hdropall : ∀ a ∈ l.drop n, p a = false := by
    intro a ha
    have := List.filter_eq_nil_iff.mp hdropnil a ha
    simpa using this
  have h1 : (l.take n).filter (fun s => !(p s)) = [] := by
    apply List.filter_eq_nil_iff.mpr
    intro a ha
    simp [hallm a ha]
  have h2 : (l.drop n).filter (fun s => !(p s)) = l.drop n := by
    apply List.filter_eq_self.mpr
    intro a ha
    simp [hdropall a ha]
  conv_lhs => rw [← hsplit]
  rw [List.filter_append, h1, h2, List.nil_append]

/-- C6: the pruning pass removes shapes only when the slide has exactly three
full-slide solid-white shapes and they are the back-most three; then it
removes exactly those three (the back-most three, leaving the rest in order)
and returns 3; in every other case it removes nothing and returns 0; and a
second run never removes anything further. -/
theorem removeRedundantWhiteRects_spec (sw sh : Nat) (shapes : List PShape) :
    ((removeRedundantWhiteRects sw sh shapes).2 = 3 ∨
      (removeRedundantWhiteRects sw sh shapes).2 = 0) ∧
    ((removeRedundantWhiteRects sw sh shapes).2 = 3 ↔
      (shapes.filter (isWhiteFullSlide sw sh)).length = 3 ∧
      (shapes.take 3).all (isWhiteFullSlide sw sh) = true) ∧
    ((removeRedundantWhiteRects sw sh shapes).2 = 3 →
      (removeRedundantWhiteRects sw sh shapes).1 = shapes.drop 3) ∧
    ((removeRedundantWhiteRects sw sh shapes).2 = 0 →
      (removeRedundantWhiteRects sw sh shapes).1 = shapes) ∧
    (removeRedundantWhiteRects sw sh (removeRedundantWhiteRects sw sh shapes).1).2
      = 0 := by
  by_cases hcond : (shapes.filter (isWhiteFullSlide sw sh)).length = 3 ∧
      (shapes.take 3).all (isWhiteFullSlide sw sh) = true
  · have hres : removeRedundantWhiteRects sw sh shapes =
        (shapes.filter (fun s => !(isWhiteFullSlide sw sh s)), 3) := by
      unfold removeRedundantWhiteRects
      rw [if_pos hcond]
    obtain ⟨hdrop, hnil⟩ :=
      filter_not_eq_drop_of (isWhiteFullSlide sw sh) shapes 3 hcond.1 hcond.2
    refine ⟨by rw [hres]; exact Or.inl rfl,
      by rw [hres]; exact ⟨fun _ => hcond, fun _ => rfl⟩,
      by rw [hres]; intro _; exact hdrop,
      by rw [hres]; intro h; simp at h, ?_⟩
    rw [hres]
    unfold removeRedundantWhiteRects
    rw [if_neg]
    intro hc2
    rw [hdrop, hnil] at hc2
    exact absurd hc2.1 (by decide)
  · have hres : removeRedundantWhiteRects sw sh shapes = (shapes, 0) := by
      unfold removeRedundantWhiteRects
      rw [if_neg hcond]
    refine ⟨by rw [hres]; exact Or.inr rfl,
      by rw [hres]; exact ⟨fun h => by simp at h, fun h => absurd h hcond⟩,
      by rw [hres]; intro h; simp at h,
      by rw [hres]; intro _; exact rfl, ?_⟩
    rw [hres]
    unfold removeRedundantWhiteRects
    rw [if_neg hcond]

/-- Witness for C6 at concrete slides: three back-most full-slide white
rectangles followed by another shape are removed with count 3; with only two
candidates, or with the candidates not back-most, nothing is removed; a
second run on the pruned slide removes nothing. -/
theorem removeRedundantWhiteRects_spec_witness :
    (removeRedundantWhiteRects 100 50
      [⟨100, 50, true⟩, ⟨100, 50, true⟩, ⟨100, 50, true⟩, ⟨10, 10, false⟩]).2
        = 3 ∧
    (removeRedundantWhiteRects 100 50
      [⟨100, 50, true⟩, ⟨100, 50, true⟩, ⟨10, 10, false⟩]).2 = 0 ∧
    (removeRedundantWhiteRects 100 50
      [⟨10, 10, false⟩, ⟨100, 50, true⟩, ⟨100, 50, true⟩, ⟨100, 50, true⟩]).2
        = 0 ∧
    (removeRedundantWhiteRects 100 50
      (removeRedundantWhiteRects 100 50
        [⟨100, 50, true⟩, ⟨100, 50, true⟩, ⟨100, 50, true⟩, ⟨10, 10, false⟩]).1).2
        = 0 := by
  refine ⟨(removeRedundantWhiteRects_spec 100 50 _).2.1.mpr ⟨by decide, by decide⟩,
    ?_, ?_,
    (removeRedundantWhiteRects_spec 100 50
      [⟨100, 50, true⟩, ⟨100, 50, true⟩, ⟨100, 50, true⟩, ⟨10, 10, false⟩]).2.2.2.2⟩
  · rcases (removeRedundantWhiteRects_spec 100 50
      [⟨100, 50, true⟩, ⟨100, 50, true⟩, ⟨10, 10, false⟩]).1 with h | h
    · exact absurd ((removeRedundantWhiteRects_spec 100 50 _).2.1.mp h).1
        (by decide)
    · exact h
  · rcases (removeRedundantWhiteRects_spec 100 50
      [⟨10, 10, false⟩, ⟨100, 50, true⟩, ⟨100, 50, true⟩, ⟨100, 50, true⟩]).1
      with h | h
    · exact absurd ((removeRedundantWhiteRects_spec 100 50 _).2.1.mp h).2
        (by decide)
    · exact h

/-- C3 counterexample: with the inline style `width:100px` (inline pixel
width 100) and the stylesheet `.a{width:200px}` matched by the fragment's
class `a` (class-rule pixel width 200), the resolved target width is 200,
not the inline 100 — the inline value does not determine `target_width`. -/
theorem resolveTargetSize_counterexample :
    searchIntPx kWidthColon (("width:100px").toList) = some 100 ∧
    (resolveTargetSize (("width:100px").toList)
      (some ((".a{width:200px}").toList)) [("a").toList]).1 = 200 ∧
    (resolveTargetSize (("width:100px").toList)
      (some ((".a{width:200px}").toList)) [("a").toList]).1 ≠ 100 := by
  decide

/-- C3 (amended): the class-rule pixel width/height of the first matching
class block, when present, determines the target size, overriding any inline
pixel value; the inline pixel value applies only when the class rules provide
none; the default is 400 x 400. -/
theorem resolveTargetSize_spec (divStyle : Str) (css : Option Str)
    (classes : List Str) :
    resolveTargetSize divStyle css classes =
      (((firstClassBlock css classes).bind
          (fun b => (extractProp (some b) kWidth).bind pxValueNat)).getD
        ((searchIntPx kWidthColon divStyle).getD 400),
       ((firstClassBlock css classes).bind
          (fun b => (extractProp (some b) kHeight).bind pxValueNat)).getD
        ((searchIntPx kHeightColon divStyle).getD 400)) := by
  unfold resolveTargetSize
  cases hb : firstClassBlock css classes with
  | none => simp
  | some b =>
    simp only [Option.bind_some, Option.some_bind]
    cases hw : extractProp (some b) kWidth with
    | none =>
      cases hh : extractProp (some b) kHeight with
      | none => simp
      | some vh =>
        cases hph : pxValueNat vh with
        | none => simp [hph]
        | some nh => simp [hph]
    | some vw =>
      cases hpw : pxValueNat vw with
      | none =>
        cases hh : extractProp (some b) kHeight with
        | none => simp [hpw]
        | some vh =>
          cases hph : pxValueNat vh with
          | none => simp [hpw, hph]
          | some nh => simp [hpw, hph]
      | some nw =>
        cases hh : extractProp (some b) kHeight with
        | none => simp [hpw]
        | some vh =>
          cases hph : pxValueNat vh with
          | none => simp [hpw, hph]
          | some nh => simp [hpw, hph]

/-- C9 counterexample: two invocations with distinct `(slide_index,
div_index)` pairs — `(None, 1)` and `(0, 1)` — produce the same output path,
because the filename uses `slide_index or 0`. -/
theorem pngPath_counterexample :
    (none, some 1) ≠ ((some 0 : Option Nat), (some 1 : Option Nat)) ∧
    pngPath (("/tmp").toList) 42 none (some 1) =
      pngPath (("/tmp").toList) 42 (some 0) (some 1) := by
  decide

/-- The fuel-driven digit list agrees with `Nat.digits 10` when the fuel
suffices. -/
theorem natDigitsRev_eq_digits : ∀ fuel n : Nat, n ≤ fuel →
    natDigitsRev fuel n = Nat.digits 10 n := by
  intro fuel
  induction fuel with
  | zero =>
    intro n hn
    have : n = 0 := Nat.le_zero.mp hn
    subst this
    simp [natDigitsRev]
  | succ f ih =>
    intro n hn
    by_cases h0 : n = 0
    · subst h0
      simp [natDigitsRev]
    · have hpos : 0 < n := Nat.pos_of_ne_zero h0
      have hdiv : n / 10 < n := Nat.div_lt_self hpos (by norm_num)
      have hle : n / 10 ≤ f := by omega
      rw [Nat.digits_def' (by norm_num : 1 < 10) hpos]
      unfold natDigitsRev
      rw [if_neg h0, ih (n / 10) hle]

/-- `Nat.digitChar` is injective below 10. -/
theorem digitChar_inj_lt : ∀ x, x < 10 → ∀ y, y < 10 →
    Nat.digitChar x = Nat.digitChar y → x = y := by
  decide

/-- Digit characters are never an underscore. -/
theorem digitChar_ne_underscore : ∀ x, x < 10 → Nat.digitChar x ≠ '_' := by
  decide

/-- Mapping `Nat.digitChar` over lists of digits below 10 is injective. -/
theorem map_digitChar_inj : ∀ l₁ l₂ : List Nat, (∀ x ∈ l₁, x < 10) →
    (∀ x ∈ l₂, x < 10) → l₁.map Nat.digitChar = l₂.map Nat.digitChar →
    l₁ = l₂ := by
  intro l₁
  induction l₁ with
  | nil =>
    intro l₂ _ _ h
    cases l₂ with
    | nil => rfl
    | cons b t => simp at h
  | cons a t ih =>
    intro l₂ h₁ h₂ h
    cases l₂ with
    | nil => simp at h
    | cons b t₂ =>
      simp only [List.map_cons, List.cons.injEq] at h
      have ha : a < 10 := h₁ a (by simp)
      have hb : b < 10 := h₂ b (by simp)
      have hab : a = b := digitChar_inj_lt a ha b hb h.1
      have ht : t = t₂ := ih t₂ (fun x hx => h₁ x (by simp [hx]))
        (fun x hx => h₂ x (by simp [hx])) h.2
      rw [hab, ht]

/-- Every character of `natRepr n` is a decimal digit character, hence not
an underscore. -/
theorem natRepr_ne_underscore (n : Nat) : ∀ c ∈ natRepr n, c ≠ '_' := by
  intro c hc
  unfold natRepr at hc
  by_cases h0 : n = 0
  · rw [if_pos h0] at hc
    simp at hc
    rw [hc]
    decide
  · rw [if_neg h0, natDigitsRev_eq_digits n n (Nat.le_refl n)] at hc
    rw [List.mem_reverse, List.mem_map] at hc
    obtain ⟨d, hd, hdc⟩ := hc
    have hlt : d < 10 := Nat.digits_lt_base (by norm_num) hd
    rw [← hdc]
    exact digitChar_ne_underscore d hlt

/-- The decimal representation is injective. -/
theorem natRepr_inj (a b : Nat) (h : natRepr a = natRepr b) : a = b := by
  unfold natRepr at h
  by_cases ha : a = 0
  · by_cases hb : b = 0
    · rw [ha, hb]
    · exfalso
      rw [if_pos ha, if_neg hb, natDigitsRev_eq_digits b b (Nat.le_refl b)] at h
      have hrev : (Nat.digits 10 b).map Nat.digitChar = ['0'] := by
        have := congrArg List.reverse h
        simpa using this.symm
      cases hd : Nat.digits 10 b with
      | nil => rw [hd] at hrev; simp at hrev
      | cons d t =>
        rw [hd] at hrev
        cases t with
        | nil =>
          simp only [List.map_cons, List.map_nil, List.cons.injEq] at hrev
          have hlt : d < 10 := Nat.digits_lt_base (by norm_num) (by rw [hd]; simp)
          have hd0 : d = 0 := by
            have h0lt : (0 : Nat) < 10 := by norm_num
            exact digitChar_inj_lt d hlt 0 h0lt (by simpa using hrev.1)
          have := Nat.ofDigits_digits 10 b
          rw [hd, hd0] at this
          simp [Nat.ofDigits] at this
          exact hb this.symm
        | cons d2 t2 => simp at hrev
  · by_cases hb : b = 0
    · exfalso
      rw [if_neg ha, if_pos hb, natDigitsRev_eq_digits a a (Nat.le_refl a)] at h
      have hrev : (Nat.digits 10 a).map Nat.digitChar = ['0'] := by
        have := congrArg List.reverse h
        simpa using this
      cases hd : Nat.digits 10 a with
      | nil => rw [hd] at hrev; simp at hrev
      | cons d t =>
        rw [hd] at hrev
        cases t with
        | nil =>
          simp only [List.map_cons, List.map_nil, List.cons.injEq] at hrev
          have hlt : d < 10 := Nat.digits_lt_base (by norm_num) (by rw [hd]; simp)
          have hd0 : d = 0 := by
            have h0lt : (0 : Nat) < 10 := by norm_num
            exact digitChar_inj_lt d hlt 0 h0lt (by simpa using hrev.1)
          have := Nat.ofDigits_digits 10 a
          rw [hd, hd0] at this
          simp [Nat.ofDigits] at this
          exact ha this.symm
        | cons d2 t2 => simp at hrev
    · rw [if_neg ha, if_neg hb, natDigitsRev_eq_digits a a (Nat.le_refl a),
        natDigitsRev_eq_digits b b (Nat.le_refl b)] at h
      have hmap : (Nat.digits 10 a).map Nat.digitChar =
          (Nat.digits 10 b).map Nat.digitChar := by
        have := congrArg List.reverse h
        simpa using this
      have hdig : Nat.digits 10 a = Nat.digits 10 b :=
        map_digitChar_inj _ _
          (fun x hx => Nat.digits_lt_base (by norm_num) hx)
          (fun x hx => Nat.digits_lt_base (by norm_num) hx) hmap
      have := congrArg (Nat.ofDigits 10) hdig
      rwa [Nat.ofDigits_digits, Nat.ofDigits_digits] at this

/-- Splitting at the first separator character is unambiguous: if two
separator-free strings followed by the separator agree, the parts agree. -/
theorem sep_split_inj : ∀ a₁ a₂ r₁ r₂ : Str, (∀ c ∈ a₁, c ≠ '_') →
    (∀ c ∈ a₂, c ≠ '_') → a₁ ++ '_' :: r₁ = a₂ ++ '_' :: r₂ →
    a₁ = a₂ ∧ r₁ = r₂ := by
  intro a₁
  induction a₁ with
  | nil =>
    intro a₂ r₁ r₂ _ h₂ h
    cases a₂ with
    | nil =>
      simp only [List.nil_append, List.cons.injEq] at h
      exact ⟨rfl, h.2⟩
    | cons c t =>
      exfalso
      simp only [List.nil_append, List.cons_append, List.cons.injEq] at h
      exact h₂ c (by simp) h.1.symm
  | cons c t ih =>
    intro a₂ r₁ r₂ h₁ h₂ h
    cases a₂ with
    | nil =>
      exfalso
      simp only [List.cons_append, List.nil_append, List.cons.injEq] at h
      exact h₁ c (by simp) h.1
    | cons c2 t2 =>
      simp only [List.cons_append, List.cons.injEq] at h
      obtain ⟨ht, hr⟩ := ih t2 r₁ r₂ (fun x hx => h₁ x (by simp [hx]))
        (fun x hx => h₂ x (by simp [hx])) h.2
      exact ⟨by rw [h.1, ht], hr⟩

/-- C9 (amended): for provided (non-`None`) indices, distinct
`(slide_index, div_index)` pairs give distinct output paths — the path
determines both indices. -/
theorem pngPath_inj (t : Str) (pid s₁ d₁ s₂ d₂ : Nat)
    (h : pngPath t pid (some s₁) (some d₁) = pngPath t pid (some s₂) (some d₂)) :
    s₁ = s₂ ∧ d₁ = d₂ := by
  have hF : ∀ s d : Nat, pngPath t pid (some s) (some d) =
      (t ++ ['/'] ++ ("div_render_pillow_").toList ++ natRepr pid) ++
        '_' :: (natRepr s ++ '_' :: (natRepr d ++ (".png").toList)) := by
    intro s d
    unfold pngPath pngFileName pyOrZero
    simp [List.append_assoc]
  rw [hF, hF] at h
  have h2 := List.append_cancel_left h
  have h3 : natRepr s₁ ++ '_' :: (natRepr d₁ ++ (".png").toList) =
      natRepr s₂ ++ '_' :: (natRepr d₂ ++ (".png").toList) := by
    exact List.cons_injective h2
  obtain ⟨hs, hrest⟩ := sep_split_inj _ _ _ _ (natRepr_ne_underscore s₁)
    (natRepr_ne_underscore s₂) h3
  have hd : natRepr d₁ = natRepr d₂ := List.append_cancel_right hrest
  exact ⟨natRepr_inj _ _ hs, natRepr_inj _ _ hd⟩

/-- Witness for C9 (amended) at concrete indices. -/
theorem pngPath_inj_witness :
    (1 : Nat) = 1 ∧ (2 : Nat) = 2 :=
  pngPath_inj (("/tmp").toList) 7 1 2 1 2 rfl

/-- C7: whenever parsing the markup document and opening the package succeed,
the orchestrator reaches the save — for every behaviour of the repair stages,
including failing font normalization and failing rectangle pruning, and
regardless of the styled-div flag; the saved package is the pipeline result
with the two guarded stages recovered. -/
theorem process_pptx_html_always_saves {Slides Pkg E Saved : Type}
    (parse : Except E Slides) (openPkg : Except E Pkg)
    (native : Slides → Pkg → Pkg) (widen : Pkg → Pkg)
    (styled : Slides → Pkg → Pkg) (runStyled : Bool)
    (normalize : Pkg → Except E Pkg)
    (removeRects : Pkg → Except E (Pkg × Nat))
    (save : Pkg → Saved) (slides : Slides) (pkg : Pkg)
    (hparse : parse = Except.ok slides) (hopen : openPkg = Except.ok pkg) :
    process_pptx_html parse openPkg native widen styled runStyled normalize
        removeRects save =
      Except.ok (save (recoverStep (fun p => (removeRects p).map Prod.fst)
        (recoverStep normalize
          (if runStyled then styled slides (widen (native slides pkg))
           else widen (native slides pkg))))) := by
  subst hparse hopen
  rfl

/-- Witness for C7 at concrete stage functions, with both guarded stages
failing: the package is still saved. -/
theorem process_pptx_html_always_saves_witness :
    process_pptx_html (Except.ok (3 : Nat)) (Except.ok (5 : Nat))
      (fun _ p => p + 1) id (fun _ p => p) true
      (fun _ => Except.error (0 : Nat)) (fun _ => Except.error 0) id =
      Except.ok 6 := by
  have h := process_pptx_html_always_saves (Except.ok (3 : Nat))
    (Except.ok (5 : Nat)) (fun _ p => p + 1) id (fun _ p => p) true
    (fun _ => Except.error (0 : Nat)) (fun _ => Except.error 0) id 3 5 rfl rfl
  simpa [recoverStep] using h

/-- C8: a fragment with no resolvable image source yields the empty source
string, and the rasterizer returns `None` — without any exception escaping,
as it is a total function — whenever the source is empty, or is neither a
valid remote URL nor an existing local file, or the image load fails. -/
theorem render_div_as_image_failure (env : LoadEnv) (imgSrc : Option Str)
    (divStyle : Str) (css : Option Str) (classes : List Str) (tmpDir : Str)
    (pid : Nat) (slideIdx divIdx : Option Nat) :
    ((imgSrc = none ∧ inlineBgUrl divStyle = none ∧
        classBgUrl css classes = none) →
      resolveSrc imgSrc divStyle css classes = []) ∧
    ((resolveSrc imgSrc divStyle css classes = [] ∨
      (env.isValidHttpUrl (resolveSrc imgSrc divStyle css classes) = false ∧
       env.isFile (resolveSrc imgSrc divStyle css classes) = false) ∨
      env.load (resolveSrc imgSrc divStyle css classes) = none) →
      render_div_as_image env imgSrc divStyle css classes tmpDir pid slideIdx
        divIdx = none) := by
  constructor
  · rintro ⟨h1, h2, h3⟩
    subst h1
    simp [resolveSrc, h2, h3]
  · intro h
    unfold render_div_as_image renderDivSource
    rcases h with h | ⟨h1, h2⟩ | h
    · simp [h]
    · by_cases hsrc : resolveSrc imgSrc divStyle css classes = []
      · simp [hsrc]
      · simp [hsrc, h1, h2]
    · by_cases hsrc : resolveSrc imgSrc divStyle css classes = []
      · simp [hsrc]
      · by_cases hv : env.isValidHttpUrl (resolveSrc imgSrc divStyle css classes)
        · simp [hsrc, hv, h]
        · by_cases hf : env.isFile (resolveSrc imgSrc divStyle css classes)
          · simp [hsrc, hv, hf, h]
          · simp [hsrc, hv, hf]

/-- Witness for C8: a fragment with no image source at all, in an environment
where nothing validates or loads, resolves to the empty source and yields
`None`. -/
theorem render_div_as_image_failure_witness :
    resolveSrc none [] none [] = [] ∧
    render_div_as_image ⟨fun _ => false, fun _ => false, fun _ => none⟩ none []
      none [] [] 1 none none = none := by
  refine ⟨(render_div_as_image_failure ⟨fun _ => false, fun _ => false,
      fun _ => none⟩ none [] none [] [] 1 none none).1
      ⟨rfl, by decide, by decide⟩,
    (render_div_as_image_failure ⟨fun _ => false, fun _ => false,
      fun _ => none⟩ none [] none [] [] 1 none none).2 (Or.inl (by decide))⟩

/-- `matchLit` succeeds exactly on strings starting with the literal. -/
theorem matchLit_eq_some : ∀ lit s r : Str, matchLit lit s = some r ↔ s = lit ++ r := by
  intro lit
  induction lit with
  | nil =>
    intro s r
    simp [matchLit]
  | cons l lt ih =>
    intro s r
    cases s with
    | nil => simp [matchLit]
    | cons c ct =>
      by_cases hc : l = c
      · subst hc
        rw [matchLit]
        simp only [if_pos rfl, List.cons_append, List.cons.injEq, true_and]
        exact ih ct r
      · rw [matchLit]
        rw [if_neg hc]
        simp only [List.cons_append, List.cons.injEq]
        constructor
        · intro h
          simp at h
        · rintro ⟨h1, _⟩
          exact absurd h1.symm hc

/-- The one-position check `boundedHere` is exactly a bounded occurrence with
an empty candidate prefix. -/
theorem boundedHere_iff (cls : Str) (prev : Option Char) (s : Str) :
    boundedHere cls prev s = true ↔
      (boundarySpec prev [] ∧ ∃ post, s = ('.' :: cls) ++ post ∧ postSpec post) := by
  unfold boundedHere boundarySpec
  rw [Bool.and_eq_true]
  constructor
  · rintro ⟨h1, h2⟩
    constructor
    · cases prev with
      | none => trivial
      | some c => simpa using h1
    · cases hm : matchLit ('.' :: cls) s with
      | none => rw [hm] at h2; simp at h2
      | some rest =>
        refine ⟨rest, (matchLit_eq_some _ _ _).mp hm, ?_⟩
        rw [hm] at h2
        intro c hc
        cases rest with
        | nil => simp at hc
        | cons c2 t =>
          simp only [List.head?_cons, Option.some.injEq] at hc
          subst hc
          simpa using h2
  · rintro ⟨h1, post, hpost, hps⟩
    constructor
    · cases prev with
      | none => rfl
      | some c => simpa using h1
    · rw [(matchLit_eq_some ('.' :: cls) s post).mpr hpost]
      cases post with
      | nil => rfl
      | cons c2 t =>
        have := hps c2 (by simp)
        simpa using this

/-- Extending the candidate prefix by one character moves the boundary
condition onto that character. -/
theorem boundarySpec_cons (prev : Option Char) (c : Char) (pre : Str) :
    boundarySpec prev (c :: pre) ↔ boundarySpec (some c) pre := by
  cases pre with
  | nil => simp [boundarySpec]
  | cons c2 t =>
    unfold boundarySpec
    rw [List.getLast?_cons_cons]
    cases hx : (c2 :: t).getLast? with
    | none =>
      exfalso
      simp at hx
    | some x =>
      exact Iff.rfl

/-- The scanner `selMatch` decides the bounded-occurrence spec, tracking the
character before the current position. -/
theorem selMatch_iff (cls : Str) : ∀ (s : Str) (prev : Option Char),
    selMatch cls prev s = true ↔
      ∃ pre post, s = pre ++ ('.' :: cls) ++ post ∧ boundarySpec prev pre ∧
        postSpec post := by
  intro s
  induction s with
  | nil =>
    intro prev
    rw [selMatch]
    constructor
    · intro h
      rw [boundedHere_iff] at h
      obtain ⟨_, post, habs, _⟩ := h
      exact absurd habs (by simp)
    · rintro ⟨pre, post, habs, _, _⟩
      exact absurd habs.symm (by simp)
  | cons c t ih =>
    intro prev
    rw [selMatch, Bool.or_eq_true, boundedHere_iff, ih (some c)]
    constructor
    · rintro (⟨h1, post, hpost, hps⟩ | ⟨pre, post, heq, hb, hp⟩)
      · exact ⟨[], post, by simpa using hpost, h1, hps⟩
      · exact ⟨c :: pre, post, by simp [heq], (boundarySpec_cons prev c pre).mpr hb, hp⟩
    · rintro ⟨pre, post, heq, hb, hp⟩
      cases pre with
      | nil =>
        left
        refine ⟨?_, post, by simpa using heq, hp⟩
        exact hb
      | cons c2 pre2 =>
        right
        simp only [List.cons_append, List.cons.injEq] at heq
        refine ⟨pre2, post, heq.2, ?_, hp⟩
        rw [← heq.1] at hb
        exact (boundarySpec_cons prev c pre2).mp hb

/-- The source's per-rule test decides `specRuleMatch`. -/
theorem ruleMatch_iff (cls : Str) (r : Str × Str) :
    ((splitOnChar ',' r.1).any (fun sel => selMatch cls none (stripStr sel)) = true)
      ↔ specRuleMatch cls r := by
  rw [List.any_eq_true]
  unfold specRuleMatch specTokenMatch
  constructor
  · rintro ⟨sel, hmem, hsel⟩
    exact ⟨sel, hmem, (selMatch_iff cls (stripStr sel) none).mp hsel⟩
  · rintro ⟨sel, hmem, hspec⟩
    exact ⟨sel, hmem, (selMatch_iff cls (stripStr sel) none).mpr hspec⟩

/-- `findSome?` over an if-guard returns the image of the first element
satisfying the guard's propositional content, and `none` exactly when no
element satisfies it. -/
theorem findSome_if_first {α β : Type} (f : α → Bool) (g : α → β) (P : α → Prop)
    (hPf : ∀ a, f a = true ↔ P a) : ∀ l : List α,
    (∀ b, l.findSome? (fun a => if f a then some (g a) else none) = some b ↔
      ∃ pre a post, l = pre ++ a :: post ∧ g a = b ∧ P a ∧
        ∀ a2 ∈ pre, ¬ P a2) ∧
    (l.findSome? (fun a => if f a then some (g a) else none) = none ↔
      ∀ a ∈ l, ¬ P a) := by
  intro l
  induction l with
  | nil =>
    constructor
    · intro b
      simp only [List.findSome?_nil]
      constructor
      · intro h
        simp at h
      · rintro ⟨pre, a, post, habs, _⟩
        exact absurd habs.symm (by simp)
    · simp
  | cons a t ih =>
    have hcons : (a :: t).findSome? (fun x => if f x then some (g x) else none) =
        if f a then some (g a) else t.findSome? (fun x => if f x then some (g x) else none) := by
      rw [List.findSome?_cons]
      by_cases hfa : f a
      · rw [if_pos hfa, if_pos hfa]
      · rw [if_neg hfa, if_neg hfa]
    by_cases hfa : f a
    · have hPa : P a := (hPf a).mp hfa
      rw [hcons, if_pos hfa]
      constructor
      · intro b
        constructor
        · intro h
          exact ⟨[], a, t, rfl, by simpa using h, hPa, by simp⟩
        · rintro ⟨pre, a2, post, heq, hg, hP2, hpre⟩
          cases pre with
          | nil =>
            simp only [List.nil_append, List.cons.injEq] at heq
            rw [← heq.1] at hg
            rw [hg]
          | cons a3 pre3 =>
            simp only [List.cons_append, List.cons.injEq] at heq
            exact absurd hPa (by rw [heq.1]; exact hpre a3 (by simp))
      · constructor
        · intro h
          simp at h
        · intro h
          exact absurd hPa (h a (by simp))
    · have hPa : ¬ P a := fun hp => hfa ((hPf a).mpr hp)
      rw [hcons, if_neg hfa]
      constructor
      · intro b
        rw [(ih.1 b)]
        constructor
        · rintro ⟨pre, a2, post, heq, hg, hP2, hpre⟩
          refine ⟨a :: pre, a2, post, by simp [heq], hg, hP2, ?_⟩
          intro a3 ha3
          rcases List.mem_cons.mp ha3 with h | h
          · rw [h]; exact hPa
          · exact hpre a3 h
        · rintro ⟨pre, a2, post, heq, hg, hP2, hpre⟩
          cases pre with
          | nil =>
            simp only [List.nil_append, List.cons.injEq] at heq
            exact absurd hP2 (by rw [← heq.1]; exact hPa)
          | cons a3 pre3 =>
            simp only [List.cons_append, List.cons.injEq] at heq
            refine ⟨pre3, a2, post, heq.2, hg, hP2, ?_⟩
            intro a4 ha4
            exact hpre a4 (by simp [ha4])
      · rw [ih.2]
        constructor
        · intro h a2 ha2
          rcases List.mem_cons.mp ha2 with h2 | h2
          · rw [h2]; exact hPa
          · exact h a2 h2
        · intro h a2 ha2
          exact h a2 (by simp [ha2])

/-- C5: `_css_block_for_class` returns the declaration block of the first
rule whose comma-separated selector list contains a selector with the token
`.<cls>` bounded on both sides by non-identifier characters (plain bounded
substring containment — `specRuleMatch` mentions no combinators, specificity
or pseudo-class structure), and returns no block otherwise. -/
theorem cssBlockForClass_spec (css : Str) (cls : Str) :
    (∀ b, cssBlockForClass (some css) cls = some b ↔
      ∃ pre r post, cssRules css = pre ++ r :: post ∧ r.2 = b ∧
        specRuleMatch cls r ∧ ∀ r2 ∈ pre, ¬ specRuleMatch cls r2) ∧
    (cssBlockForClass (some css) cls = none ↔
      ∀ r ∈ cssRules css, ¬ specRuleMatch cls r) := by
  have h := findSome_if_first
    (fun r => (splitOnChar ',' r.1).any (fun sel => selMatch cls none (stripStr sel)))
    Prod.snd (specRuleMatch cls) (ruleMatch_iff cls) (cssRules css)
  exact h

/-- The cover scale factor of the red/blue test fixture is exactly 1. -/
theorem coverScale_fixture : coverScale 200 100 100 100 = 1 := by
  unfold coverScale
  norm_num

/-- The horizontal cover offset for `object-position: 100%` on the fixture. -/
theorem coverOffset_fixture_x : coverOffset 200 100 (some 100) none = 100 := by
  show pyInt ((((200 : Nat) : ℚ) - ((100 : Nat) : ℚ)) * ((100 : ℚ) / 100)) = 100
  rw [show (((200 : Nat) : ℚ) - ((100 : Nat) : ℚ)) * ((100 : ℚ) / 100) =
    ((100 : ℤ) : ℚ) by norm_num]
  unfold pyInt
  rw [if_pos (by positivity), Int.floor_intCast]

/-- The vertical cover offset for `object-position: 50%` on the fixture. -/
theorem coverOffset_fixture_y : coverOffset 100 100 (some 50) none = 0 := by
  show pyInt ((((100 : Nat) : ℚ) - ((100 : Nat) : ℚ)) * ((50 : ℚ) / 100)) = 0
  rw [show (((100 : Nat) : ℚ) - ((100 : Nat) : ℚ)) * ((50 : ℚ) / 100) =
    ((0 : ℤ) : ℚ) by norm_num]
  unfold pyInt
  rw [if_pos (by norm_num), Int.floor_intCast]

/-- The clamped horizontal crop origin on the fixture. -/
theorem coverClamp_fixture_x : coverClamp 200 100 (some 100) none = 100 := by
  unfold coverClamp
  rw [coverOffset_fixture_x]
  decide

/-- The clamped vertical crop origin on the fixture. -/
theorem coverClamp_fixture_y : coverClamp 100 100 (some 50) none = 0 := by
  unfold coverClamp
  rw [coverOffset_fixture_y]
  decide

/-- The scaled width of the fixture under cover. -/
theorem coverSW_fixture : coverSW 200 100 100 100 = 200 := by
  unfold coverSW
  rw [coverScale_fixture, mul_one]
  rw [show ((200 : Nat) : ℚ) = ((200 : ℤ) : ℚ) by norm_num]
  unfold pyInt
  rw [if_pos (by positivity), Int.floor_intCast]
  rfl

/-- The scaled height of the fixture under cover. -/
theorem coverSH_fixture : coverSH 200 100 100 100 = 100 := by
  unfold coverSH
  rw [coverScale_fixture, mul_one]
  rw [show ((100 : Nat) : ℚ) = ((100 : ℤ) : ℚ) by norm_num]
  unfold pyInt
  rw [if_pos (by positivity), Int.floor_intCast]
  rfl

/-- Resizing the fixture to its own dimensions is the identity. -/
theorem resizeImg_fixture : resizeImg splitSrcImg 200 100 = splitSrcImg := by
  unfold resizeImg
  rw [if_pos]
  exact ⟨rfl, rfl⟩

/-- C2: under `object-fit: cover` the scaled image always covers the target
(`sw ≥ tw`, `sh ≥ th` — the `max` of the two ratios), and the clamped crop
origin keeps the target-sized window inside the scaled image; a percentage
object-position offset is the overflow scaled by the percentage and a pixel
offset is used as given; consequently, rasterizing the 200x100 left-red /
right-blue source at 100x100 with `object-position: 100% 50%` yields the blue
pixel at the output's horizontal center. -/
theorem coverFit_spec :
    (∀ sw0 sh0 tw th : Nat, 0 < sw0 → 0 < sh0 →
      tw ≤ coverSW sw0 sh0 tw th ∧ th ≤ coverSH sw0 sh0 tw th) ∧
    (∀ (s t : Nat) (pct : Option ℚ) (px : Option ℤ), t ≤ s →
      0 ≤ coverClamp s t pct px ∧ coverClamp s t pct px + (t : ℤ) ≤ (s : ℤ)) ∧
    (∀ (s t : Nat) (p : ℚ) (px : Option ℤ),
      coverOffset s t (some p) px = pyInt (((s : ℚ) - (t : ℚ)) * (p / 100))) ∧
    (∀ (s t : Nat) (v : ℤ), coverOffset s t none (some v) = v) ∧
    (coverFit splitSrcImg 100 100 (some 100) (some 50) none none).pix 50 50 =
      (0, 0, 255) := by
  refine ⟨?_, ?_, fun s t p px => rfl, fun s t v => rfl, ?_⟩
  · intro sw0 sh0 tw th hw hh
    have hwq : (0 : ℚ) < (sw0 : ℚ) := by exact_mod_cast hw
    have hhq : (0 : ℚ) < (sh0 : ℚ) := by exact_mod_cast hh
    constructor
    · have h1 : (tw : ℚ) / (sw0 : ℚ) ≤ coverScale sw0 sh0 tw th := le_max_left _ _
      have h2 : (tw : ℚ) ≤ (sw0 : ℚ) * coverScale sw0 sh0 tw th := by
        have heq : (sw0 : ℚ) * ((tw : ℚ) / (sw0 : ℚ)) = (tw : ℚ) := by
          field_simp
        calc (tw : ℚ) = (sw0 : ℚ) * ((tw : ℚ) / (sw0 : ℚ)) := heq.symm
          _ ≤ (sw0 : ℚ) * coverScale sw0 sh0 tw th :=
              mul_le_mul_of_nonneg_left h1 (le_of_lt hwq)
      have h3 : (0 : ℚ) ≤ (sw0 : ℚ) * coverScale sw0 sh0 tw th :=
        le_trans (by positivity) h2
      have h4 : (tw : ℤ) ≤ ⌊(sw0 : ℚ) * coverScale sw0 sh0 tw th⌋ :=
        Int.le_floor.mpr (by exact_mod_cast h2)
      have h0f : 0 ≤ ⌊(sw0 : ℚ) * coverScale sw0 sh0 tw th⌋ :=
        Int.floor_nonneg.mpr h3
      have h5 : tw ≤ (⌊(sw0 : ℚ) * coverScale sw0 sh0 tw th⌋).toNat := by
        omega
      unfold coverSW
      unfold pyInt
      rw [if_pos h3]
      exact le_trans h5 (Nat.le_max_right 1 _)
    · have h1 : (th : ℚ) / (sh0 : ℚ) ≤ coverScale sw0 sh0 tw th := le_max_right _ _
      have h2 : (th : ℚ) ≤ (sh0 : ℚ) * coverScale sw0 sh0 tw th := by
        have heq : (sh0 : ℚ) * ((th : ℚ) / (sh0 : ℚ)) = (th : ℚ) := by
          field_simp
        calc (th : ℚ) = (sh0 : ℚ) * ((th : ℚ) / (sh0 : ℚ)) := heq.symm
          _ ≤ (sh0 : ℚ) * coverScale sw0 sh0 tw th :=
              mul_le_mul_of_nonneg_left h1 (le_of_lt hhq)
      have h3 : (0 : ℚ) ≤ (sh0 : ℚ) * coverScale sw0 sh0 tw th :=
        le_trans (by positivity) h2
      have h4 : (th : ℤ) ≤ ⌊(sh0 : ℚ) * coverScale sw0 sh0 tw th⌋ :=
        Int.le_floor.mpr (by exact_mod_cast h2)
      have h0f : 0 ≤ ⌊(sh0 : ℚ) * coverScale sw0 sh0 tw th⌋ :=
        Int.floor_nonneg.mpr h3
      have h5 : th ≤ (⌊(sh0 : ℚ) * coverScale sw0 sh0 tw th⌋).toNat := by
        omega
      unfold coverSH
      unfold pyInt
      rw [if_pos h3]
      exact le_trans h5 (Nat.le_max_right 1 _)
  · intro s t pct px hts
    unfold coverClamp
    constructor
    · exact le_max_left 0 _
    · have h1 : min ((s : ℤ) - (t : ℤ)) (coverOffset s t pct px) ≤
          (s : ℤ) - (t : ℤ) := min_le_left _ _
      have h2 : (0 : ℤ) ≤ (s : ℤ) - (t : ℤ) := by omega
      have h3 : max 0 (min ((s : ℤ) - (t : ℤ)) (coverOffset s t pct px)) ≤
          (s : ℤ) - (t : ℤ) := max_le h2 h1
      omega
  · show (resizeImg splitSrcImg (coverSW 200 100 100 100)
        (coverSH 200 100 100 100)).pix
      ((coverClamp (coverSW 200 100 100 100) 100 (some 100) none).toNat + 50)
      ((coverClamp (coverSH 200 100 100 100) 100 (some 50) none).toNat + 50) =
      (0, 0, 255)
    rw [coverSW_fixture, coverSH_fixture, resizeImg_fixture, coverClamp_fixture_x,
      coverClamp_fixture_y]
    decide

/-- Witness for C2: the covering and clamping facts evaluated on the
concrete fixture dimensions. -/
theorem coverFit_spec_witness :
    (100 ≤ coverSW 200 100 100 100 ∧ 100 ≤ coverSH 200 100 100 100) ∧
    (0 ≤ coverClamp 200 100 (some 100) none ∧
      coverClamp 200 100 (some 100) none + (100 : ℤ) ≤ (200 : ℤ)) :=
  ⟨coverFit_spec.1 200 100 100 100 (by decide) (by decide),
   coverFit_spec.2.1 200 100 (some 100) none (by decide)⟩

end Marp2PPTX
